import Mathlib

/-!
Shallow embedding of the Backtesting core (src/Backtesting/strategies.py,
src/Backtesting/predictors.py, src/Backtesting/backtester.py).

Conventions of the embedding:
- Python floats are modelled as exact rationals (ℚ); the two metrics whose
  values are irrational over the reals (Sharpe ratio, which multiplies by
  sqrt(252)) are modelled as separate real-valued functions of the same
  inputs, so that the rest of the pipeline stays executable.
- Dates are modelled by their index in the sorted price series (the Python
  code sorts by date and iterates positionally over `self.data.index`).
- Exceptions are modelled with `Except BTError`.
- The call `random.random() < self.error_rate` made by
  `StochasticErrorStrategy.calculate_position` is modelled by an explicit
  boolean argument `flip` (a stream `flips : Nat → Bool`, one draw per
  simulation step, when running the whole loop).
-/

/-- Error kinds raised by the Python code (`ValueError` for invalid prices and
parameters, `KeyError` for unknown dates, `IndexError` from
`_calculate_metrics` indexing an empty equity curve). -/
inductive BTError where
  | invalidPrice
  | notFound
  | invalidParameter
  | emptyData
deriving DecidableEq, Repr

/-- One row of the price data: the `Close` column and the `close_diff`
feature column (the fractional change from the close of the previous row,
computed by `DataFetcher._add_features` via `pct_change`). -/
structure Row where
  close : ℚ
  close_diff : ℚ
deriving DecidableEq, Repr

instance : Inhabited Row := ⟨⟨0, 0⟩⟩

/-- The three position-sizing strategies of src/Backtesting/strategies.py:
`AllInStrategy`, `FixedPercentageStrategy(percentage)` and
`StochasticErrorStrategy(error_rate, percentage)`. -/
inductive Strategy where
  | allIn
  | fixedPercentage (percentage : ℚ)
  | stochasticError (error_rate : ℚ) (percentage : ℚ)
deriving DecidableEq, Repr

/-- `Strategy.calculate_position(signal, current_capital, current_price)`.
The `flip` argument models the outcome of the comparison
`random.random() < self.error_rate` that `StochasticErrorStrategy` draws on
every call (the other strategies ignore it).  Raising `ValueError` for a
non-positive price is modelled as `Except.error .invalidPrice`. -/
def calculate_position : Strategy → Bool → Int → ℚ → ℚ → Except BTError ℚ
  | .allIn, _flip, signal, current_capital, current_price =>
    if signal = 0 then .ok 0
    else if current_price ≤ 0 then .error .invalidPrice
    else if current_capital ≤ 0 then .ok 0
    else .ok ((signal : ℚ) * (current_capital / current_price))
  | .fixedPercentage percentage, _flip, signal, current_capital, current_price =>
    if signal = 0 then .ok 0
    else if current_price ≤ 0 then .error .invalidPrice
    else if current_capital ≤ 0 then .ok 0
    else .ok ((signal : ℚ) * (current_capital * percentage / current_price))
  | .stochasticError _error_rate percentage, flip, signal, current_capital, current_price =>
    let signal_copy : Int := if flip ∧ signal ≠ 0 then -signal else signal
    if signal_copy = 0 then .ok 0
    else if current_price ≤ 0 then .error .invalidPrice
    else if current_capital ≤ 0 then .ok 0
    else .ok ((signal_copy : ℚ) * (current_capital * percentage / current_price))

/-- `Strategy._get_return(current_price, next_price, position)`: the realized
fractional return of one step.  `FixedPercentageStrategy` and
`StochasticErrorStrategy` additionally multiply by `self.percentage`. -/
def get_return (strat : Strategy) (current_price next_price position : ℚ) : ℚ :=
  let trade_return : ℚ :=
    if 0 < position then (next_price - current_price) / current_price
    else if position < 0 then (current_price - next_price) / current_price
    else 0
  match strat with
  | .allIn => trade_return
  | .fixedPercentage percentage => trade_return * percentage
  | .stochasticError _ percentage => trade_return * percentage

/-- `OraclePredictor.predict(date)` composed with the dictionary built by
`OraclePredictor._generate_predictions`.  The loop stores, for each index
`i < n - 1`, the sign of the `close_diff` of row `i+1`; after the loop it stores
`0` for the last index `n - 1`; `predict` raises `KeyError` (here
`.notFound`) for any other date.  On an empty series the constructor itself
fails (`dates[-1]` raises), so no prediction exists. -/
def oraclePredict (rows : List Row) (date : Nat) : Except BTError Int :=
  if rows.length = 0 then .error .notFound
  else if date + 1 = rows.length then .ok 0
  else if date + 1 < rows.length then
    let next_close_diff := (rows.getD (date + 1) default).close_diff
    .ok (if 0 < next_close_diff then 1 else if next_close_diff < 0 then -1 else 0)
  else .error .notFound

/-- The `Trade` dataclass of src/Backtesting/backtester.py. -/
structure Trade where
  date : Nat
  signal : Int
  price : ℚ
  position : ℚ
  capital_before : ℚ
  capital_after : ℚ
  return_pct : ℚ
deriving DecidableEq, Repr

/-- One entry of the equity-curve DataFrame (`Date`, `Capital`). -/
structure EquityPoint where
  date : Nat
  capital : ℚ
deriving DecidableEq, Repr

instance : Inhabited EquityPoint := ⟨⟨0, 0⟩⟩

deriving instance DecidableEq for Except

/-- The day-by-day loop of `Backtester.run`, recursing over the remaining
closing prices with `i` the absolute index of the current date and
`current_capital` the running capital.  Mirrors the Python body: query the
predictor, size the position, and if a next day exists realize the return,
update capital and (for a non-neutral signal) append a `Trade`; every date
appends an `EquityPoint` carrying the post-update capital. -/
def runLoop (strat : Strategy) (predict : Nat → Except BTError Int)
    (flips : Nat → Bool) :
    Nat → ℚ → List ℚ → Except BTError (List EquityPoint × List Trade)
  | _i, _capital, [] => .ok ([], [])
  | i, current_capital, current_price :: rest =>
    match predict i with
    | .error e => .error e
    | .ok signal =>
      match calculate_position strat (flips i) signal current_capital current_price with
      | .error e => .error e
      | .ok position =>
        match rest with
        | [] => .ok ([⟨i, current_capital⟩], [])
        | next_price :: _ =>
          let trade_return := get_return strat current_price next_price position
          let new_capital := current_capital * (1 + trade_return)
          match runLoop strat predict flips (i + 1) new_capital rest with
          | .error e => .error e
          | .ok (eq, trades) =>
            let trades' :=
              if signal ≠ 0 then
                ⟨i, signal, current_price, position, current_capital, new_capital,
                  trade_return * 100⟩ :: trades
              else trades
            .ok (⟨i, new_capital⟩ :: eq, trades')

/-- Mean of a list (`np.mean`); division by zero only arises on inputs the
Python code also guards against. -/
def listMean (l : List ℚ) : ℚ := l.sum / l.length

/-- `pct_change().dropna()` over the capital column: successive fractional
changes, the first (undefined) entry dropped. -/
def dailyReturns (caps : List ℚ) : List ℚ :=
  (caps.zip caps.tail).map (fun ab => (ab.2 - ab.1) / ab.1)

/-- Sample variance with one delta degree of freedom, the square of
`pandas.Series.std()`.  For fewer than two observations pandas yields `NaN`;
since the only use is the guard `std > 0`, which `NaN` fails just as `0`
does, that case is mapped to `0`. -/
def sampleVariance (l : List ℚ) : ℚ :=
  if l.length < 2 then 0
  else ((l.map (fun x => (x - listMean l) ^ 2)).sum) / ((l.length : ℚ) - 1)

/-- Running maximum (`Series.cummax`), seeded with the first element. -/
def runningMax : ℚ → List ℚ → List ℚ
  | _m, [] => []
  | m, x :: xs => max m x :: runningMax (max m x) xs

/-- `cummax` of a capital list. -/
def cummax : List ℚ → List ℚ
  | [] => []
  | x :: xs => x :: runningMax x xs

/-- Minimum of a list (`Series.min`); the Python call sites only reach it on
nonempty input. -/
def listMin : List ℚ → ℚ
  | [] => 0
  | x :: xs => xs.foldl min x

/-- The rational-valued entries of the dictionary returned by
`Backtester._calculate_metrics`. -/
structure Metrics where
  total_return : ℚ
  max_drawdown : ℚ
  number_of_trades : Nat
  win_rate : ℚ
  avg_win : ℚ
  avg_loss : ℚ
  final_capital : ℚ
  total_days : Nat
deriving DecidableEq, Repr

/-- `Backtester._calculate_metrics` (its rational-valued entries).  Note that
the code takes element 0 of the Capital column of the equity curve — the
FIRST EQUITY POINT, which `run` has already updated with the realized return
of the first day — as the
`initial_capital` of the total-return formula. -/
def calculate_metrics (equity_curve : List EquityPoint) (trades : List Trade) : Metrics :=
  let caps := equity_curve.map EquityPoint.capital
  let final_capital := caps.getLastD 0
  let initial_capital := caps.headD 0
  let total_return := ((final_capital - initial_capital) / initial_capital) * 100
  let drawdowns := List.zipWith (fun c m => (c - m) / m) caps (cummax caps)
  let max_drawdown := listMin drawdowns * 100
  let winning := trades.filter (fun t => 0 < t.return_pct)
  let losing := trades.filter (fun t => t.return_pct < 0)
  let win_rate : ℚ :=
    if trades.isEmpty then 0 else ((winning.length : ℚ) / (trades.length : ℚ)) * 100
  let avg_win : ℚ :=
    if trades.isEmpty then 0
    else if winning.isEmpty then 0 else listMean (winning.map Trade.return_pct)
  let avg_loss : ℚ :=
    if trades.isEmpty then 0
    else if losing.isEmpty then 0 else listMean (losing.map Trade.return_pct)
  { total_return := total_return
    max_drawdown := max_drawdown
    number_of_trades := trades.length
    win_rate := win_rate
    avg_win := avg_win
    avg_loss := avg_loss
    final_capital := final_capital
    total_days := equity_curve.length }

/-- The `Sharpe Ratio` entry of `_calculate_metrics`, modelled separately
because of the irrational factor `sqrt(252)`:
`mean(daily_returns) / std(daily_returns) * sqrt(252)` when there is at
least one daily return with positive standard deviation, else `0`. -/
noncomputable def sharpe_ratio (equity_curve : List EquityPoint) : ℝ :=
  let returns := dailyReturns (equity_curve.map EquityPoint.capital)
  if 0 < returns.length ∧ 0 < sampleVariance returns then
    ((listMean returns : ℚ) : ℝ) / Real.sqrt ((sampleVariance returns : ℚ) : ℝ)
      * Real.sqrt 252
  else 0

/-- The `BacktestResults` dataclass. -/
structure BacktestResults where
  equity_curve : List EquityPoint
  trades : List Trade
  metrics : Metrics
  initial_capital : ℚ
  final_capital : ℚ
deriving DecidableEq, Repr

/-- `Backtester(...)` construction followed by `Backtester.run()`: the
constructor rejects a non-positive initial capital; the loop produces the
equity curve and trade ledger; `_calculate_metrics` (which indexes
`iloc[0]`/`iloc[-1]` and therefore fails on an empty curve) finalizes the
result.  The Python `final_capital` is the final running capital of the loop,
i.e. the capital of the last equity point. -/
def Backtester.run (strat : Strategy) (predict : Nat → Except BTError Int)
    (flips : Nat → Bool) (closes : List ℚ) (initial_capital : ℚ) :
    Except BTError BacktestResults :=
  if initial_capital ≤ 0 then .error .invalidParameter
  else
    match runLoop strat predict flips 0 initial_capital closes with
    | .error e => .error e
    | .ok (equity_curve, trades) =>
      match equity_curve with
      | [] => .error .emptyData
      | p :: ps =>
        .ok { equity_curve := p :: ps
              trades := trades
              metrics := calculate_metrics (p :: ps) trades
              initial_capital := initial_capital
              final_capital := ((p :: ps).getLastD default).capital }

/-- The price series of the monotonic-uptrend scenario: closes
`[100, 110, 121]`, with the `close_diff` feature column as the data pipeline
computes it (fractional change from the previous close; the value in the
first row is never read by the oracle). -/
def c1rows : List Row := [⟨100, 0⟩, ⟨110, 1/10⟩, ⟨121, 1/10⟩]

/-- Modelled from the spec: the return-attribution function of §4.2 — long
positions realize `(exit - entry) / entry`, short positions
`(entry - exit) / entry`, flat positions `0`. -/
def specRealizedReturn (entry_price exit_price position : ℚ) : ℚ :=
  if 0 < position then (exit_price - entry_price) / entry_price
  else if position < 0 then (entry_price - exit_price) / entry_price
  else 0

/-- Claim C1: on the price series `[100, 110, 121]` with the oracle predictor,
the All-In strategy and starting capital `1`, the oracle yields Up, Up,
Neutral; the capital after day 1 is `11/10` and after day 2 is `121/100`
(the equity curve reads `[1.10, 1.21, 1.21]`).  However the `Total Return (%)`
metric the code computes is `10`, not the claimed `21`: `_calculate_metrics`
uses the first equity-curve entry — which already contains the realized gain
of day 1 — as the initial capital of the total-return formula. -/
theorem c1_scenario_eval :
    oraclePredict c1rows 0 = .ok 1 ∧
    oraclePredict c1rows 1 = .ok 1 ∧
    oraclePredict c1rows 2 = .ok 0 ∧
    (Backtester.run .allIn (oraclePredict c1rows) (fun _ => false)
        (c1rows.map Row.close) 1).map
      (fun r => r.equity_curve.map EquityPoint.capital)
      = .ok [11/10, 121/100, 121/100] ∧
    (Backtester.run .allIn (oraclePredict c1rows) (fun _ => false)
        (c1rows.map Row.close) 1).map (fun r => r.metrics.total_return) = .ok 10 ∧
    (Backtester.run .allIn (oraclePredict c1rows) (fun _ => false)
        (c1rows.map Row.close) 1).map (fun r => r.metrics.total_return) ≠ .ok 21 := by
  refine ⟨?_, ?_, ?_, ?_, ?_, ?_⟩ <;>
    norm_num [Except.map, Backtester.run, runLoop, calculate_position, get_return,
      calculate_metrics, oraclePredict, c1rows, dailyReturns, listMean, cummax,
      runningMax, listMin]

/-- A neutral signal makes every strategy return a flat position immediately,
before the price is even inspected. -/
theorem calculate_position_neutral (strat : Strategy) (flip : Bool)
    (current_capital current_price : ℚ) :
    calculate_position strat flip 0 current_capital current_price = .ok 0 := by
  cases strat <;> simp [calculate_position]

/-- With a positive price and non-positive capital, every strategy returns a
flat position for every signal and every random draw. -/
theorem calculate_position_no_capital (strat : Strategy) (flip : Bool) (signal : Int)
    (current_capital current_price : ℚ) (hcap : current_capital ≤ 0)
    (hp : 0 < current_price) :
    calculate_position strat flip signal current_capital current_price = .ok 0 := by
  have hp' : ¬ current_price ≤ 0 := not_le.mpr hp
  cases strat <;> simp [calculate_position, hp', hcap]

/-- Claim C4, amended: for every sizer, a NON-NEUTRAL signal with a
non-positive price fails with `InvalidPriceError`; a Neutral signal instead
returns a flat position without the price ever being checked (the
`signal == 0` early return precedes the price validation in all three
`calculate_position` implementations). -/
theorem c4_invalid_price (strat : Strategy) (flip : Bool) (signal : Int)
    (current_capital current_price : ℚ) (hp : current_price ≤ 0) :
    (signal ≠ 0 →
      calculate_position strat flip signal current_capital current_price
        = .error .invalidPrice) ∧
    (signal = 0 →
      calculate_position strat flip signal current_capital current_price = .ok 0) := by
  constructor
  · intro hs
    cases strat with
    | allIn => simp [calculate_position, hp, hs]
    | fixedPercentage f => simp [calculate_position, hp, hs]
    | stochasticError e f =>
      cases flip <;> simp [calculate_position, hp, hs, neg_eq_zero]
  · intro hs
    subst hs
    exact calculate_position_neutral strat flip current_capital current_price

/-- Claim C4, counterexample to the claim as stated: with a Neutral signal the
size operation does NOT fail on a non-positive price — it returns a flat
position. -/
theorem c4_counterexample :
    calculate_position .allIn false 0 100 0 = .ok 0 ∧
    calculate_position .allIn false 0 100 0 ≠ .error .invalidPrice := by
  constructor <;> simp [calculate_position]

theorem c4_witness :
    calculate_position .allIn false 1 100 0 = .error .invalidPrice ∧
    calculate_position .allIn false 1 100 (-1) = .error .invalidPrice :=
  ⟨(c4_invalid_price .allIn false 1 100 0 (by norm_num)).1 (by norm_num),
   (c4_invalid_price .allIn false 1 100 (-1) (by norm_num)).1 (by norm_num)⟩

/-- Claim C5: for every sizer and positive price, the position is exactly `0`
whenever the capital is non-positive (for every signal and random draw), and
whenever the signal is Neutral. -/
theorem c5_flat_on_no_capital (strat : Strategy) (flip : Bool) (signal : Int)
    (current_capital current_price : ℚ) (hp : 0 < current_price) :
    (current_capital ≤ 0 →
      calculate_position strat flip signal current_capital current_price = .ok 0) ∧
    (signal = 0 →
      calculate_position strat flip signal current_capital current_price = .ok 0) := by
  constructor
  · intro hc
    exact calculate_position_no_capital strat flip signal _ _ hc hp
  · intro hs
    subst hs
    exact calculate_position_neutral strat flip current_capital current_price

theorem c5_witness :
    calculate_position .allIn false 1 0 5 = .ok 0 ∧
    calculate_position .allIn false (-1) (-5) 5 = .ok 0 ∧
    calculate_position (.stochasticError (1/2) (1/2)) true (-1) (-5) 5 = .ok 0 :=
  ⟨(c5_flat_on_no_capital .allIn false 1 0 5 (by norm_num)).1 (by norm_num),
   (c5_flat_on_no_capital .allIn false (-1) (-5) 5 (by norm_num)).1 (by norm_num),
   (c5_flat_on_no_capital (.stochasticError (1/2) (1/2)) true (-1) (-5) 5
     (by norm_num)).1 (by norm_num)⟩

/-- Claim C6: for every positive entry price, `_get_return` of the All-In
strategy equals the realized return stated by the spec; the Fixed-Percentage and
Stochastic-Error variants scale it by their fraction `f`. -/
theorem c6_realized_return (entry_price exit_price position f er : ℚ)
    (_he : 0 < entry_price) :
    get_return .allIn entry_price exit_price position
        = specRealizedReturn entry_price exit_price position ∧
    get_return (.fixedPercentage f) entry_price exit_price position
        = f * specRealizedReturn entry_price exit_price position ∧
    get_return (.stochasticError er f) entry_price exit_price position
        = f * specRealizedReturn entry_price exit_price position := by
  refine ⟨rfl, ?_, ?_⟩ <;>
    · simp only [get_return, specRealizedReturn]
      split_ifs <;> ring

theorem c6_witness :
    get_return .allIn 100 110 3 = specRealizedReturn 100 110 3 ∧
    get_return (.fixedPercentage (1/2)) 100 110 3
      = (1/2) * specRealizedReturn 100 110 3 ∧
    get_return (.stochasticError (1/4) (1/2)) 100 110 3
      = (1/2) * specRealizedReturn 100 110 3 :=
  ⟨(c6_realized_return 100 110 3 (1/2) (1/4) (by norm_num)).1,
   (c6_realized_return 100 110 3 (1/2) (1/4) (by norm_num)).2.1,
   (c6_realized_return 100 110 3 (1/2) (1/4) (by norm_num)).2.2⟩

/-- Claim C9: `_get_return` only inspects the sign of the position, so two
positions with the same sign realize the same return, and the capital
update of the engine `capital_before * (1 + trade_return)` likewise depends only on
the sign of the position. -/
theorem c9_sign_only (strat : Strategy) (current_price next_price p q capital_before : ℚ)
    (hpos : 0 < p ↔ 0 < q) (hneg : p < 0 ↔ q < 0) :
    get_return strat current_price next_price p
        = get_return strat current_price next_price q ∧
    capital_before * (1 + get_return strat current_price next_price p)
        = capital_before * (1 + get_return strat current_price next_price q) := by
  have h : get_return strat current_price next_price p
      = get_return strat current_price next_price q := by
    cases strat <;>
      · simp only [get_return]
        split_ifs <;> first | rfl | tauto
  exact ⟨h, by rw [h]⟩

theorem c9_witness :
    get_return .allIn 10 12 2 = get_return .allIn 10 12 5 :=
  (c9_sign_only .allIn 10 12 2 5 7 (by norm_num) (by norm_num)).1

/-- `_get_return` of any strategy realizes a zero return for a flat position. -/
theorem get_return_flat (strat : Strategy) (current_price next_price : ℚ) :
    get_return strat current_price next_price 0 = 0 := by
  cases strat <;> simp [get_return]

/-- If dropping `i` elements uncovers `x :: rest`, then `x` is the element at
index `i`. -/
theorem drop_cons_getD {α : Type} (d : α) :
    ∀ (l : List α) (i : Nat) (x : α) (rest : List α),
      l.drop i = x :: rest → l.getD i d = x := by
  intro l
  induction l with
  | nil => intro i x rest h; simp at h
  | cons a as ih =>
    intro i x rest h
    cases i with
    | zero =>
      simp only [List.drop_zero] at h
      cases h
      simp
    | succ n =>
      simp only [List.drop_succ_cons] at h
      simpa using ih n x rest h

/-- If dropping `i` elements uncovers `x :: rest`, dropping one more uncovers
`rest`. -/
theorem drop_cons_drop {α : Type} :
    ∀ (l : List α) (i : Nat) (x : α) (rest : List α),
      l.drop i = x :: rest → l.drop (i + 1) = rest := by
  intro l
  induction l with
  | nil => intro i x rest h; simp at h
  | cons a as ih =>
    intro i x rest h
    cases i with
    | zero =>
      simp only [List.drop_zero] at h
      cases h
      simp
    | succ n =>
      simp only [List.drop_succ_cons] at h ⊢
      exact ih n x rest h

/-- If dropping `i` elements leaves a nonempty list, `i` is in range. -/
theorem drop_cons_lt {α : Type} (l : List α) (i : Nat) (x : α) (rest : List α)
    (h : l.drop i = x :: rest) : i < l.length := by
  have hl := congrArg List.length h
  simp [List.length_drop] at hl
  omega

/-- Shifting a `List.range` enumeration by one step. -/
theorem range_map_add_succ (i n : Nat) :
    (List.range (n + 1)).map (fun k => i + k)
      = i :: (List.range n).map (fun k => (i + 1) + k) := by
  rw [List.range_succ_eq_map, List.map_cons, List.map_map]
  have hf : ((fun k => i + k) ∘ Nat.succ) = fun k => (i + 1) + k := by
    funext k
    simp only [Function.comp_apply]
    omega
  rw [hf]
  simp

/-- The loop records the dates `i, i+1, …` of the remaining prices, one
equity point per date. -/
theorem runLoop_dates (strat : Strategy) (predict : Nat → Except BTError Int)
    (flips : Nat → Bool) :
    ∀ (prices : List ℚ) (i : Nat) (cap : ℚ) (eqc : List EquityPoint) (tr : List Trade),
      runLoop strat predict flips i cap prices = .ok (eqc, tr) →
      eqc.map EquityPoint.date = (List.range prices.length).map (fun k => i + k) := by
  intro prices
  induction prices with
  | nil =>
    intro i cap eqc tr h
    simp [runLoop] at h
    simp [h.1]
  | cons price rest ih =>
    intro i cap eqc tr h
    simp only [runLoop] at h
    cases hp : predict i with
    | error e => rw [hp] at h; simp at h
    | ok signal =>
      rw [hp] at h
      simp only [] at h
      cases hcp : calculate_position strat (flips i) signal cap price with
      | error e => rw [hcp] at h; simp at h
      | ok position =>
        rw [hcp] at h
        simp only [] at h
        cases rest with
        | nil =>
          simp at h
          obtain ⟨h1, -⟩ := h
          subst h1
          simp [List.range_succ]
        | cons next rest2 =>
          simp only [] at h
          cases hr : runLoop strat predict flips (i + 1)
              (cap * (1 + get_return strat price next position)) (next :: rest2) with
          | error e => rw [hr] at h; simp at h
          | ok pr =>
            obtain ⟨eq2, tr2⟩ := pr
            rw [hr] at h
            simp at h
            obtain ⟨h1, -⟩ := h
            subst h1
            have hih := ih (i + 1) (cap * (1 + get_return strat price next position))
              eq2 tr2 hr
            simp [hih, range_map_add_succ]

/-- Claim C2: every completed run produces exactly one equity point per date
of the price series: the equity curve lists the dates `0, …, n-1` in order,
so its length equals the series length. -/
theorem c2_equity_curve (strat : Strategy) (predict : Nat → Except BTError Int)
    (flips : Nat → Bool) (closes : List ℚ) (initial_capital : ℚ)
    (res : BacktestResults)
    (h : Backtester.run strat predict flips closes initial_capital = .ok res) :
    res.equity_curve.length = closes.length ∧
    res.equity_curve.map EquityPoint.date = List.range closes.length := by
  unfold Backtester.run at h
  split at h
  · simp at h
  · cases hr : runLoop strat predict flips 0 initial_capital closes with
    | error e => rw [hr] at h; simp at h
    | ok pr =>
      obtain ⟨eqc, tr⟩ := pr
      rw [hr] at h
      have hd := runLoop_dates strat predict flips closes 0 initial_capital eqc tr hr
      cases eqc with
      | nil => simp at h
      | cons p ps =>
        simp at h
        have hcurve : res.equity_curve = p :: ps := by rw [← h]
        rw [hcurve]
        have hd2 : (p :: ps).map EquityPoint.date = List.range closes.length := by
          simpa using hd
        constructor
        · have := congrArg List.length hd2
          simpa using this
        · exact hd2

theorem c2_witness :
    (Backtester.run .allIn (fun _ => .ok 0) (fun _ => false) [1, 2] 1).map
      (fun r => r.equity_curve.length) = .ok 2 := by
  cases hE : Backtester.run .allIn (fun _ => .ok 0) (fun _ => false) [1, 2] 1 with
  | error e =>
    exfalso
    norm_num [Backtester.run, runLoop, calculate_position, get_return, calculate_metrics,
      dailyReturns, listMean, cummax, runningMax, listMin] at hE
    exact Except.noConfusion hE
  | ok res =>
    have h := c2_equity_curve .allIn (fun _ => .ok 0) (fun _ => false) [1, 2] 1 res hE
    simp [Except.map, h.1]

/-- Every completed run from index `i` with remaining prices `closes.drop i`
records one trade per non-neutral non-final date, dated by the loop index,
priced from the series, with the return field equal to the realized
fractional return times `100`. -/
theorem runLoop_trades (strat : Strategy) (predict : Nat → Except BTError Int)
    (flips : Nat → Bool) (closes : List ℚ) :
    ∀ (prices : List ℚ) (i : Nat) (cap : ℚ) (eqc : List EquityPoint) (tr : List Trade),
      prices = closes.drop i →
      runLoop strat predict flips i cap prices = .ok (eqc, tr) →
      (∀ t ∈ tr, i ≤ t.date ∧ t.date + 1 < closes.length ∧ t.signal ≠ 0 ∧
        predict t.date = .ok t.signal ∧ t.price = closes.getD t.date 0 ∧
        t.return_pct
          = get_return strat t.price (closes.getD (t.date + 1) 0) t.position * 100) ∧
      (∀ j s, i ≤ j → j + 1 < closes.length → predict j = .ok s → s ≠ 0 →
        tr.countP (fun t => t.date = j) = 1) := by
  intro prices
  induction prices with
  | nil =>
    intro i cap eqc tr hdrop h
    simp [runLoop] at h
    obtain ⟨-, h2⟩ := h
    subst h2
    constructor
    · intro t ht
      simp at ht
    · intro j s hij hj hpj hs
      exfalso
      have hlen := congrArg List.length hdrop
      simp [List.length_drop] at hlen
      omega
  | cons price rest ih =>
    intro i cap eqc tr hdrop h
    have hgetD : closes.getD i 0 = price := drop_cons_getD 0 closes i price rest hdrop.symm
    have hdrop2 : closes.drop (i + 1) = rest := drop_cons_drop closes i price rest hdrop.symm
    simp only [runLoop] at h
    cases hp : predict i with
    | error e => rw [hp] at h; simp at h
    | ok signal =>
      rw [hp] at h
      simp only [] at h
      cases hcp : calculate_position strat (flips i) signal cap price with
      | error e => rw [hcp] at h; simp at h
      | ok position =>
        rw [hcp] at h
        simp only [] at h
        cases rest with
        | nil =>
          simp at h
          obtain ⟨-, h2⟩ := h
          subst h2
          constructor
          · intro t ht
            simp at ht
          · intro j s hij hj hpj hs
            exfalso
            have hlen := congrArg List.length hdrop2
            simp [List.length_drop] at hlen
            omega
        | cons next rest2 =>
          simp only [] at h
          have hnext : closes.getD (i + 1) 0 = next :=
            drop_cons_getD 0 closes (i + 1) next rest2 hdrop2
          have hilen : i + 1 < closes.length :=
            drop_cons_lt closes (i + 1) next rest2 hdrop2
          cases hr : runLoop strat predict flips (i + 1)
              (cap * (1 + get_return strat price next position)) (next :: rest2) with
          | error e => rw [hr] at h; simp at h
          | ok pr =>
            obtain ⟨eq2, tr2⟩ := pr
            rw [hr] at h
            simp at h
            obtain ⟨-, h2⟩ := h
            obtain ⟨ihall, ihcount⟩ :=
              ih (i + 1) (cap * (1 + get_return strat price next position)) eq2 tr2
                hdrop2.symm hr
            by_cases hsig : signal = 0
            · simp [hsig] at h2
              subst h2
              constructor
              · intro t ht
                obtain ⟨ha, hb, hc, hd, he, hf⟩ := ihall t ht
                exact ⟨by omega, hb, hc, hd, he, hf⟩
              · intro j s hij hj hpj hs
                by_cases hji : j = i
                · exfalso
                  subst hji
                  rw [hp] at hpj
                  simp at hpj
                  subst hpj
                  exact hs hsig
                · exact ihcount j s (by omega) hj hpj hs
            · simp [hsig] at h2
              subst h2
              constructor
              · intro t ht
                rcases List.mem_cons.mp ht with rfl | ht2
                · refine ⟨le_refl i, hilen, hsig, hp, hgetD.symm, ?_⟩
                  rw [hnext]
                · obtain ⟨ha, hb, hc, hd, he, hf⟩ := ihall t ht2
                  exact ⟨by omega, hb, hc, hd, he, hf⟩
              · intro j s hij hj hpj hs
                by_cases hji : j = i
                · subst hji
                  have hzero : tr2.countP (fun t => t.date = j) = 0 := by
                    rw [List.countP_eq_zero]
                    intro t ht
                    have := (ihall t ht).1
                    simp only [decide_eq_true_eq]
                    omega
                  simp [List.countP_cons, hzero]
                · have hcnt := ihcount j s (by omega) hj hpj hs
                  simp [List.countP_cons, hcnt]
                  omega

/-- Claim C3: in every completed run the trade ledger has no entry dated the
final date (the date of every entry has a successor in the series), no entry with
a Neutral signal, exactly one entry per non-neutral date that is not the
final date, and the return field of every entry equals the realized
fractional return of the trade multiplied by `100`. -/
theorem c3_trade_ledger (strat : Strategy) (predict : Nat → Except BTError Int)
    (flips : Nat → Bool) (closes : List ℚ) (initial_capital : ℚ)
    (res : BacktestResults)
    (h : Backtester.run strat predict flips closes initial_capital = .ok res) :
    (∀ t ∈ res.trades, t.date + 1 < closes.length ∧ t.signal ≠ 0 ∧
      t.return_pct
        = get_return strat t.price (closes.getD (t.date + 1) 0) t.position * 100) ∧
    (∀ j s, j + 1 < closes.length → predict j = .ok s → s ≠ 0 →
      res.trades.countP (fun t => t.date = j) = 1) := by
  unfold Backtester.run at h
  split at h
  · simp at h
  · cases hr : runLoop strat predict flips 0 initial_capital closes with
    | error e => rw [hr] at h; simp at h
    | ok pr =>
      obtain ⟨eqc, tr⟩ := pr
      rw [hr] at h
      obtain ⟨hall, hcount⟩ :=
        runLoop_trades strat predict flips closes closes 0 initial_capital eqc tr
          (by simp) hr
      cases eqc with
      | nil => simp at h
      | cons p ps =>
        simp at h
        have htr : res.trades = tr := by rw [← h]
        rw [htr]
        constructor
        · intro t ht
          obtain ⟨-, hb, hc, -, -, hf⟩ := hall t ht
          exact ⟨hb, hc, hf⟩
        · intro j s hj hpj hs
          exact hcount j s (Nat.zero_le j) hj hpj hs

theorem c3_witness :
    (Backtester.run .allIn (fun _ => .ok 1) (fun _ => false) [1, 2] 1).map
      (fun r => r.trades.countP (fun t => t.date = 0)) = .ok 1 := by
  cases hE : Backtester.run .allIn (fun _ => .ok 1) (fun _ => false) [1, 2] 1 with
  | error e =>
    exfalso
    norm_num [Backtester.run, runLoop, calculate_position, get_return, calculate_metrics,
      dailyReturns, listMean, cummax, runningMax, listMin] at hE
    exact Except.noConfusion hE
  | ok res =>
    have h := c3_trade_ledger .allIn (fun _ => .ok 1) (fun _ => false) [1, 2] 1 res hE
    have hc := h.2 0 1 (by norm_num) rfl (by norm_num)
    simp [Except.map, hc]

/-- Claim C10: if the running capital is non-positive at some date then, with
all remaining prices positive, every strategy computes a flat position on
that date and every later date, the capital never changes (`capital_after ==
capital_before` exactly, since a flat position realizes a zero return), and
all remaining equity points carry that same capital value. -/
theorem c10_no_capital_absorbing (strat : Strategy)
    (predict : Nat → Except BTError Int) (flips : Nat → Bool) :
    ∀ (prices : List ℚ) (i : Nat) (cap : ℚ) (eqc : List EquityPoint) (tr : List Trade),
      cap ≤ 0 → (∀ p ∈ prices, 0 < p) →
      runLoop strat predict flips i cap prices = .ok (eqc, tr) →
      (∀ (flip : Bool) (s : Int) (price : ℚ), 0 < price →
        calculate_position strat flip s cap price = .ok 0) ∧
      (∀ pt ∈ eqc, pt.capital = cap) ∧
      (∀ t ∈ tr, t.position = 0 ∧ t.capital_before = cap ∧ t.capital_after = cap) := by
  intro prices
  induction prices with
  | nil =>
    intro i cap eqc tr hcap hpos h
    simp [runLoop] at h
    obtain ⟨h1, h2⟩ := h
    subst h1
    subst h2
    refine ⟨fun flip s price hp =>
      calculate_position_no_capital strat flip s cap price hcap hp, ?_, ?_⟩
    · intro pt hpt
      simp at hpt
    · intro t ht
      simp at ht
  | cons price rest ih =>
    intro i cap eqc tr hcap hpos h
    have hpp : 0 < price := hpos price (by simp)
    have hrest : ∀ p ∈ rest, 0 < p := fun p hp => hpos p (by simp [hp])
    simp only [runLoop] at h
    cases hp : predict i with
    | error e => rw [hp] at h; simp at h
    | ok signal =>
      rw [hp] at h
      simp only [] at h
      cases hcp : calculate_position strat (flips i) signal cap price with
      | error e => rw [hcp] at h; simp at h
      | ok position =>
        have hpos0 : position = 0 := by
          have hcp2 := calculate_position_no_capital strat (flips i) signal cap price hcap hpp
          rw [hcp] at hcp2
          simpa using hcp2
        subst hpos0
        rw [hcp] at h
        simp only [] at h
        cases rest with
        | nil =>
          simp at h
          obtain ⟨h1, h2⟩ := h
          subst h1
          subst h2
          refine ⟨fun flip s price hp =>
            calculate_position_no_capital strat flip s cap price hcap hp, ?_, ?_⟩
          · intro pt hpt
            simp at hpt
            subst hpt
            rfl
          · intro t ht
            simp at ht
        | cons next rest2 =>
          simp only [] at h
          have hcap1 : cap * (1 + get_return strat price next 0) = cap := by
            rw [get_return_flat]
            ring
          rw [hcap1] at h
          cases hr : runLoop strat predict flips (i + 1) cap (next :: rest2) with
          | error e => rw [hr] at h; simp at h
          | ok pr =>
            obtain ⟨eq2, tr2⟩ := pr
            rw [hr] at h
            simp at h
            obtain ⟨h1, h2⟩ := h
            obtain ⟨-, iheq, ihtr⟩ := ih (i + 1) cap eq2 tr2 hcap hrest hr
            refine ⟨fun flip s price hp =>
              calculate_position_no_capital strat flip s cap price hcap hp, ?_, ?_⟩
            · intro pt hpt
              rw [← h1] at hpt
              rcases List.mem_cons.mp hpt with rfl | hpt2
              · rfl
              · exact iheq pt hpt2
            · intro t ht
              by_cases hsig : signal = 0
              · simp [hsig] at h2
                subst h2
                exact ihtr t ht
              · simp [hsig] at h2
                rw [← h2] at ht
                rcases List.mem_cons.mp ht with rfl | ht2
                · exact ⟨rfl, rfl, rfl⟩
                · exact ihtr t ht2

theorem c10_witness :
    calculate_position .allIn true 1 0 2 = .ok 0 := by
  have h := c10_no_capital_absorbing .allIn (fun _ => Except.ok 1) (fun _ => false)
    [1, 2] 0 0 [⟨0, 0⟩, ⟨1, 0⟩] [⟨0, 1, 1, 0, 0, 0, 0⟩] le_rfl
    (by intro p hp; fin_cases hp <;> norm_num)
    (by norm_num [runLoop, calculate_position, get_return])
  exact h.1 true 1 2 (by norm_num)

/-- Claim C7: for a price series whose `close_diff` column is consistent with
the closes (each entry is the fractional change from the previous close, with
all closes positive), the oracle assigns each non-final date the signal Up
when the close rises to the next date, Down when it falls, Neutral when it is
unchanged — and always assigns the final date Neutral. -/
theorem c7_oracle (rows : List Row)
    (hdiff : ∀ j, j + 1 < rows.length →
      (rows.getD (j + 1) default).close_diff
        = ((rows.getD (j + 1) default).close - (rows.getD j default).close)
            / (rows.getD j default).close)
    (hpos : ∀ j, j < rows.length → 0 < (rows.getD j default).close) :
    (∀ i, i + 1 < rows.length →
      oraclePredict rows i = .ok
        (if (rows.getD i default).close < (rows.getD (i + 1) default).close then 1
         else if (rows.getD (i + 1) default).close < (rows.getD i default).close then -1
         else 0)) ∧
    (0 < rows.length → oraclePredict rows (rows.length - 1) = .ok 0) := by
  constructor
  · intro i hi
    have hne : ¬ rows.length = 0 := by omega
    have hne2 : ¬ i + 1 = rows.length := by omega
    simp only [oraclePredict]
    rw [if_neg hne, if_neg hne2, if_pos hi]
    have hd := hdiff i hi
    have hpi : 0 < (rows.getD i default).close := hpos i (by omega)
    have h1 : (0 < (rows.getD (i + 1) default).close_diff)
        ↔ (rows.getD i default).close < (rows.getD (i + 1) default).close := by
      rw [hd, div_pos_iff]
      constructor
      · rintro (⟨ha, -⟩ | ⟨-, hb⟩)
        · linarith
        · linarith
      · intro hlt
        exact Or.inl ⟨by linarith, hpi⟩
    have h2 : ((rows.getD (i + 1) default).close_diff < 0)
        ↔ (rows.getD (i + 1) default).close < (rows.getD i default).close := by
      rw [hd, div_neg_iff]
      constructor
      · rintro (⟨-, hb⟩ | ⟨ha, -⟩)
        · linarith
        · linarith
      · intro hlt
        exact Or.inr ⟨by linarith, hpi⟩
    simp only [h1, h2]
  · intro hlen
    have hne : ¬ rows.length = 0 := by omega
    have heq : rows.length - 1 + 1 = rows.length := by omega
    simp only [oraclePredict]
    rw [if_neg hne, if_pos heq]

theorem c7_witness :
    oraclePredict c1rows 0 = .ok 1 ∧ oraclePredict c1rows 2 = .ok 0 := by
  have h := c7_oracle c1rows
    (by
      intro j hj
      have hj2 : j ≤ 1 := by
        simp [c1rows] at hj
        omega
      interval_cases j <;> norm_num [c1rows])
    (by
      intro j hj
      have hj2 : j ≤ 2 := by
        simp [c1rows] at hj
        omega
      interval_cases j <;> norm_num [c1rows])
  constructor
  · have h0 := h.1 0 (by norm_num [c1rows])
    rw [h0]
    norm_num [c1rows]
  · have h2 := h.2 (by norm_num [c1rows])
    simpa [c1rows] using h2

/-- Claim C8: the metrics calculator falls back to `0` on degenerate inputs:
with zero trades the win rate, average win and average loss are all `0`; with
a single-point equity curve, or whenever the daily-return series has zero
variance (zero standard deviation), the Sharpe ratio is `0`. -/
theorem c8_degenerate (equity_curve : List EquityPoint) (trades : List Trade) :
    (trades = [] →
      (calculate_metrics equity_curve trades).win_rate = 0 ∧
      (calculate_metrics equity_curve trades).avg_win = 0 ∧
      (calculate_metrics equity_curve trades).avg_loss = 0) ∧
    (equity_curve.length = 1 → sharpe_ratio equity_curve = 0) ∧
    (sampleVariance (dailyReturns (equity_curve.map EquityPoint.capital)) = 0 →
      sharpe_ratio equity_curve = 0) := by
  refine ⟨?_, ?_, ?_⟩
  · intro h
    subst h
    refine ⟨?_, ?_, ?_⟩ <;> simp [calculate_metrics]
  · intro h
    cases equity_curve with
    | nil => simp at h
    | cons pt rest =>
      cases rest with
      | nil => simp [sharpe_ratio, dailyReturns]
      | cons b l => simp at h
  · intro h
    simp [sharpe_ratio, h]

theorem c8_witness :
    (calculate_metrics [⟨0, 1⟩] []).win_rate = 0 ∧ sharpe_ratio [⟨0, 1⟩] = 0 :=
  ⟨((c8_degenerate [⟨0, 1⟩] []).1 rfl).1, (c8_degenerate [⟨0, 1⟩] []).2.1 rfl⟩
